import Mathlib

/-!
Shallow embedding of the Anchor program-log event extractor
(ts/dist/esm, `EventParser` / `ExecutionContext` / `LogScanner`).

A log line is modelled as a list of characters (`Str`).  The JavaScript
regular expressions of the source are modelled as explicit decompositions:
`.` in a JS regex matches every character except the four line terminators,
which `jsDotOk` captures.  The event decoder is an opaque parameter
`decode : Str -> Option E`, and the callback of `parseLogs` is modelled by
returning the list of emitted events in callback order, together with either
the final execution stack or the error that aborted the run.

The execution stack is represented with its top as the head of the list
(the source keeps the top at the end of a JS array).
-/

/-- A log line / program id: an immutable sequence of characters. -/
abbrev Str := List Char

/-- The character class of `.` in a JavaScript regex without the `s` flag:
any character except a line terminator. -/
def jsDotOk (c : Char) : Bool :=
  !(c == '\n') && !(c == '\r') && !(c == '\u2028') && !(c == '\u2029')

/-- Does `s` decompose as `a ++ sep ++ b` with `a` and `b` free of line
terminators?  This is the matching test for a JS regex of the shape
`A(.*)sep.*$` applied at a fixed start position. -/
def hasCleanSplit (sep : Str) : Str → Bool
  | [] => sep.isPrefixOf ([] : Str)
  | c :: rest =>
    (sep.isPrefixOf (c :: rest) && ((c :: rest).drop sep.length).all jsDotOk)
      || (jsDotOk c && hasCleanSplit sep rest)

/-- The greedy decomposition `s = a ++ sep ++ b` with the longest admissible
`a` (both `a` and `b` free of line terminators), as JS backtracking of
`(.*)sep.*$` produces it.  Returns `(a, b)`. -/
def lastCleanSplit (sep : Str) : Str → Option (Str × Str)
  | [] => if sep.isPrefixOf ([] : Str) then some ([], []) else none
  | c :: rest =>
    match (if jsDotOk c then lastCleanSplit sep rest else none) with
    | some (a, b) => some (c :: a, b)
    | none =>
      if sep.isPrefixOf (c :: rest) && ((c :: rest).drop sep.length).all jsDotOk then
        some ([], (c :: rest).drop sep.length)
      else none

/-- `String.prototype.includes`: does `sub` occur as a contiguous
subsequence of the second argument? -/
def containsSeq (sub : Str) : Str → Bool
  | [] => sub.isPrefixOf ([] : Str)
  | c :: rest => sub.isPrefixOf (c :: rest) || containsSeq sub rest

/-- Capture group 1 of `/^Program (.*) invoke.*$/.exec(log)`, `none` when the
regex does not match. -/
def invokeCapture (log : Str) : Option Str :=
  if ("Program ".toList).isPrefixOf log then
    (lastCleanSplit (" invoke".toList) (log.drop ("Program ".toList).length)).map Prod.fst
  else none

/-- `logStart.match(/^Program (.*) consumed .*$/g) !== null`. -/
def consumedMatch (logStart : Str) : Bool :=
  ("Program ".toList).isPrefixOf logStart
    && hasCleanSplit (" consumed ".toList) (logStart.drop ("Program ".toList).length)

/-- `const LOG_START_INDEX = "Program log: ".length` (13). -/
def LOG_START_INDEX : Nat := ("Program log: ".toList).length

/-- `log.split(":")[0]`: the part of the line before its first colon. -/
def headBeforeColon (log : Str) : Str := log.takeWhile (fun c => c != ':')

/-- The fatal conditions of a run: the `ExecutionContext` constructor throwing
on a first line the invoke regex does not match (`exec` returns `null` and
indexing it throws), and the two `assert.ok` guards in `program()` and
`pop()`. -/
inductive ExtractError
  | malformedLogStream
  | peekEmptyStack
  | popEmptyStack
deriving DecidableEq

namespace ExecutionContext

/-- The `ExecutionContext` constructor: seeds the stack with capture group 1 of
`/^Program (.*) invoke.*$/g.exec(log)`.  When `parseLogs` runs on an empty
list the constructor receives `null`, which JS coerces to the string
`"null"`; the regex never matches it, so indexing the `null` result throws. -/
def init (log : Option Str) : Except ExtractError (List Str) :=
  match invokeCapture (log.getD ("null".toList)) with
  | some program => Except.ok [program]
  | none => Except.error ExtractError.malformedLogStream

/-- `program()`: `assert.ok(this.stack.length > 0); return this.stack[this.stack.length - 1]`. -/
def program (stack : List Str) : Except ExtractError Str :=
  match stack with
  | [] => Except.error ExtractError.peekEmptyStack
  | top :: _ => Except.ok top

/-- `push(newProgram)`: `this.stack.push(newProgram)`. -/
def push (stack : List Str) (newProgram : Str) : List Str := newProgram :: stack

/-- `pop()`: `assert.ok(this.stack.length > 0); this.stack.pop()`. -/
def pop (stack : List Str) : Except ExtractError (List Str) :=
  match stack with
  | [] => Except.error ExtractError.popEmptyStack
  | _ :: rest => Except.ok rest

end ExecutionContext

/-- `LogScanner.next()`: returns `null` on an exhausted list (leaving the state
unchanged, so every later call also returns `null`), otherwise the next line
and the advanced state. -/
def LogScanner.next (logs : List Str) : Option Str × List Str :=
  match logs with
  | [] => (none, [])
  | l :: rest => (some l, rest)

namespace EventParser

/-- `handleSystemLog(log)`: classification of a line whose events are not to be
decoded.  Returns `[newProgram, didPop]`. -/
def handleSystemLog (programId : Str) (log : Str) : Option Str × Bool :=
  if ("Program ".toList ++ programId ++ " invoke".toList).isPrefixOf
      (headBeforeColon log) then
    (some programId, false)
  else if containsSeq ("invoke".toList) (headBeforeColon log) then
    (some ("cpi".toList), false)
  else if consumedMatch (headBeforeColon log) then
    (none, true)
  else
    (none, false)

/-- `handleProgramLog(log)`: a line emitted while this program is executing.
Returns `[event, newProgram, didPop]`. -/
def handleProgramLog {E : Type} (decode : Str → Option E) (programId : Str)
    (log : Str) : Option E × (Option Str × Bool) :=
  if ("Program log:".toList).isPrefixOf log then
    (decode (log.drop LOG_START_INDEX), none, false)
  else
    (none, handleSystemLog programId log)

/-- `handleLog(execution, log)`: dispatch on whether the current executor is
this program.  The peek on the stack can throw. -/
def handleLog {E : Type} (decode : Str → Option E) (programId : Str)
    (stack : List Str) (log : Str) :
    Except ExtractError (Option E × (Option Str × Bool)) :=
  match ExecutionContext.program stack with
  | Except.error e => Except.error e
  | Except.ok current =>
    if current = programId then
      Except.ok (handleProgramLog decode programId log)
    else
      Except.ok (none, handleSystemLog programId log)

/-- The `while (log !== null)` loop of `parseLogs`, from a given stack and the
lines the scanner has not yet yielded.  Produces the emitted events in
callback order and either the final stack or the aborting error. -/
def parseLogsGo {E : Type} (decode : Str → Option E) (programId : Str) :
    List Str → List Str → List E × Except ExtractError (List Str)
  | stack, [] => ([], Except.ok stack)
  | stack, log :: rest =>
    match handleLog decode programId stack log with
    | Except.error e => ([], Except.error e)
    | Except.ok (event, newProgram, didPop) =>
      let stack1 := match newProgram with
        | some np => ExecutionContext.push stack np
        | none => stack
      if didPop then
        match ExecutionContext.pop stack1 with
        | Except.error e => (event.toList, Except.error e)
        | Except.ok stack2 =>
          match rest with
          | [] => (event.toList, Except.ok stack2)
          | _ :: rest2 =>
            let r := parseLogsGo decode programId stack2 rest2
            (event.toList ++ r.1, r.2)
      else
        let r := parseLogsGo decode programId stack1 rest
        (event.toList ++ r.1, r.2)

/-- `parseLogs(logs, callback)`: build the `ExecutionContext` from the first
scanned line, then run the loop over the remaining lines. -/
def parseLogs {E : Type} (decode : Str → Option E) (programId : Str)
    (logs : List Str) : List E × Except ExtractError (List Str) :=
  let scanned := LogScanner.next logs
  match ExecutionContext.init scanned.1 with
  | Except.error e => ([], Except.error e)
  | Except.ok stack => parseLogsGo decode programId stack scanned.2

/-- Instrumented variant of the `parseLogs` loop that records, for every
callback invocation, the index (in the original `logs` argument) of the line
whose handling emitted the event.  `i` is the index of the next line to be
read. -/
def parseLogsTraceGo {E : Type} (decode : Str → Option E) (programId : Str) :
    List Str → Nat → List Str → List (Nat × E)
  | _, _, [] => []
  | stack, i, log :: rest =>
    match handleLog decode programId stack log with
    | Except.error _ => []
    | Except.ok (event, newProgram, didPop) =>
      let here := match event with
        | some e => [(i, e)]
        | none => []
      let stack1 := match newProgram with
        | some np => ExecutionContext.push stack np
        | none => stack
      if didPop then
        match ExecutionContext.pop stack1 with
        | Except.error _ => here
        | Except.ok stack2 =>
          match rest with
          | [] => here
          | _ :: rest2 => here ++ parseLogsTraceGo decode programId stack2 (i + 2) rest2
      else
        here ++ parseLogsTraceGo decode programId stack1 (i + 1) rest

/-- Instrumented variant of `parseLogs`: the emitted events paired with the
index of the source line each one came from. -/
def parseLogsTrace {E : Type} (decode : Str → Option E) (programId : Str)
    (logs : List Str) : List (Nat × E) :=
  let scanned := LogScanner.next logs
  match ExecutionContext.init scanned.1 with
  | Except.error _ => []
  | Except.ok stack => parseLogsTraceGo decode programId stack 1 scanned.2

/-- Specification of the input class of claim C9: starting with execution
stack depth `d`, every line is reached with a positive depth, i.e. at no
point have more completion markers been processed than invocation markers
(the one discarded line after each completion counted as skipped).  The depth
transition of each line is read off `handleSystemLog`. -/
def okRun (programId : Str) : Nat → List Str → Bool
  | _, [] => true
  | d, [_] => d != 0
  | d, log :: next :: rest2 =>
    if d = 0 then false
    else if (handleSystemLog programId log).1.isSome then
      okRun programId (d + 1) (next :: rest2)
    else if (handleSystemLog programId log).2 then
      okRun programId (d - 1) rest2
    else
      okRun programId d (next :: rest2)

end EventParser

deriving instance DecidableEq for Except

/-- Event decoder that never decodes anything. -/
def decodeNone : Str → Option Nat := fun _ => none

/-- Event decoder that reports the length of every payload it is given. -/
def decodeLen : Str → Option Nat := fun s => some s.length

/-- Event decoder that decodes every payload to a constant event. -/
def decodeConst (n : Nat) : Str → Option Nat := fun _ => some n

section Helpers

theorem isPrefixOf_eq_true_iff {l₁ l₂ : Str} :
    l₁.isPrefixOf l₂ = true ↔ l₁ <+: l₂ :=
  List.isPrefixOf_iff_prefix

theorem length_le_of_isPrefixOf {l₁ l₂ : Str} (h : l₁.isPrefixOf l₂ = true) :
    l₁.length ≤ l₂.length :=
  (isPrefixOf_eq_true_iff.mp h).length_le

theorem eq_append_of_isPrefixOf {l₁ l₂ : Str} (h : l₁.isPrefixOf l₂ = true) :
    l₂ = l₁ ++ l₂.drop l₁.length :=
  (List.prefix_iff_eq_append.mp (isPrefixOf_eq_true_iff.mp h)).symm

theorem lastCleanSplit_eq (sep : Str) : ∀ (s a b : Str),
    lastCleanSplit sep s = some (a, b) → s = a ++ sep ++ b := by
  intro s
  induction s with
  | nil =>
    intro a b h
    simp only [lastCleanSplit] at h
    split at h
    · rename_i hp
      simp only [Option.some.injEq, Prod.mk.injEq] at h
      obtain ⟨rfl, rfl⟩ := h
      have hsep : sep = [] := List.prefix_nil.mp (isPrefixOf_eq_true_iff.mp hp)
      simp [hsep]
    · cases h
  | cons c rest ih =>
    intro a b h
    cases hc : jsDotOk c with
    | true =>
      cases hrec : lastCleanSplit sep rest with
      | some ab =>
        obtain ⟨a', b'⟩ := ab
        have hval : lastCleanSplit sep (c :: rest) = some (c :: a', b') := by
          simp [lastCleanSplit, hc, hrec]
        rw [hval] at h
        simp only [Option.some.injEq, Prod.mk.injEq] at h
        obtain ⟨rfl, rfl⟩ := h
        simp [ih a' b' hrec]
      | none =>
        cases hpc : (sep.isPrefixOf (c :: rest)
            && ((c :: rest).drop sep.length).all jsDotOk) with
        | true =>
          have hval : lastCleanSplit sep (c :: rest)
              = some ([], (c :: rest).drop sep.length) := by
            simp [lastCleanSplit, hc, hrec, hpc]
          rw [hval] at h
          simp only [Option.some.injEq, Prod.mk.injEq] at h
          obtain ⟨rfl, rfl⟩ := h
          obtain ⟨hp1, -⟩ : _ ∧ _ := by simpa using hpc
          simpa using (List.prefix_iff_eq_append.mp hp1).symm
        | false =>
          have hval : lastCleanSplit sep (c :: rest) = none := by
            simp [lastCleanSplit, hc, hrec, hpc]
          rw [hval] at h
          cases h
    | false =>
      cases hpc : (sep.isPrefixOf (c :: rest)
          && ((c :: rest).drop sep.length).all jsDotOk) with
      | true =>
        have hval : lastCleanSplit sep (c :: rest)
            = some ([], (c :: rest).drop sep.length) := by
          simp [lastCleanSplit, hc, hpc]
        rw [hval] at h
        simp only [Option.some.injEq, Prod.mk.injEq] at h
        obtain ⟨rfl, rfl⟩ := h
        obtain ⟨hp1, -⟩ : _ ∧ _ := by simpa using hpc
        simpa using (List.prefix_iff_eq_append.mp hp1).symm
      | false =>
        have hval : lastCleanSplit sep (c :: rest) = none := by
          simp [lastCleanSplit, hc, hpc]
        rw [hval] at h
        cases h

theorem containsSeq_of_inside (sub : Str) : ∀ (s : Str),
    sub <:+: s → containsSeq sub s = true := by
  intro s
  induction s with
  | nil =>
    intro h
    have hsub : sub = [] := List.eq_nil_of_infix_nil h
    simp [containsSeq, hsub, isPrefixOf_eq_true_iff]
  | cons c rest ih =>
    intro h
    rcases List.infix_cons_iff.mp h with hp | hi
    · simp [containsSeq, isPrefixOf_eq_true_iff.mpr hp]
    · simp [containsSeq, ih hi]

theorem invokeCapture_inside (log a : Str) (h : invokeCapture log = some a) :
    a <:+: log := by
  unfold invokeCapture at h
  split at h
  · rename_i hp
    cases hsplit : lastCleanSplit (" invoke".toList)
        (log.drop ("Program ".toList).length) with
    | none => rw [hsplit] at h; cases h
    | some ab =>
      rw [hsplit] at h
      obtain ⟨a', b⟩ := ab
      simp only [Option.map, Option.some.injEq] at h
      subst h
      have hdec := lastCleanSplit_eq _ _ _ _ hsplit
      have hlog := eq_append_of_isPrefixOf hp
      have h1 : a' <:+: log.drop ("Program ".toList).length := by
        rw [hdec]
        exact ⟨[], " invoke".toList ++ b, by simp⟩
      rw [hlog]
      exact h1.trans (List.suffix_append _ _).isInfix
  · cases h

theorem headBeforeColon_isPre (log : Str) : headBeforeColon log <+: log := by
  unfold headBeforeColon
  exact List.takeWhile_prefix _

theorem headBeforeColon_programLog (t : Str) :
    headBeforeColon ("Program log:".toList ++ t) = "Program log".toList := rfl

theorem prefixCheck_small (pid : Str) :
    ("Program ".toList ++ pid ++ " invoke".toList).isPrefixOf ("Program log".toList)
      = false := by
  cases hx : ("Program ".toList ++ pid ++ " invoke".toList).isPrefixOf
      ("Program log".toList) with
  | false => rfl
  | true =>
    exfalso
    have hle := length_le_of_isPrefixOf hx
    have e1 : ("Program ".toList).length = 8 := rfl
    have e2 : (" invoke".toList).length = 7 := rfl
    have e3 : ("Program log".toList).length = 11 := rfl
    rw [e3, List.length_append, List.length_append, e1, e2] at hle
    omega

/-- A line of the shape `Program log:.*` is a no-op for `handleSystemLog`:
its head is `Program log`, which is too short to start with
`Program <id> invoke`, does not contain `invoke`, and is not a consumed
marker. -/
theorem handleSystemLog_programLog (pid t : Str) :
    EventParser.handleSystemLog pid ("Program log:".toList ++ t) = (none, false) := by
  unfold EventParser.handleSystemLog
  rw [headBeforeColon_programLog, prefixCheck_small pid]
  rw [if_neg (show ¬(false = true) by decide)]
  decide

theorem handleSystemLog_shape (pid log : Str) :
    EventParser.handleSystemLog pid log = (some pid, false)
      ∨ EventParser.handleSystemLog pid log = (some ("cpi".toList), false)
      ∨ EventParser.handleSystemLog pid log = (none, true)
      ∨ EventParser.handleSystemLog pid log = (none, false) := by
  unfold EventParser.handleSystemLog
  split_ifs <;> simp

theorem not_pre_of_isPrefixOf_false {l₁ l₂ : Str} (h : l₁.isPrefixOf l₂ = false) :
    ¬ (l₁ <+: l₂) := fun hc => by
  simp [isPrefixOf_eq_true_iff.mpr hc] at h

/-- `handleLog` on an empty stack: the peek assertion throws. -/
theorem handleLog_nil {E : Type} (decode : Str → Option E) (pid log : Str) :
    EventParser.handleLog decode pid [] log
      = Except.error ExtractError.peekEmptyStack := rfl

/-- `handleLog` when the target executes and the line has the decode
marker. -/
theorem handleLog_eq_decode {E : Type} (decode : Str → Option E) (pid : Str)
    (s : List Str) (log : Str)
    (hp : ("Program log:".toList).isPrefixOf log = true) :
    EventParser.handleLog decode pid (pid :: s) log
      = Except.ok (decode (log.drop LOG_START_INDEX), none, false) := by
  simp [EventParser.handleLog, ExecutionContext.program,
    EventParser.handleProgramLog, hp]
  intro hc
  exact absurd (isPrefixOf_eq_true_iff.mp hp) hc

/-- `handleLog` when the target executes but the line has no decode marker:
falls through to the system classification. -/
theorem handleLog_eq_fallthrough {E : Type} (decode : Str → Option E) (pid : Str)
    (s : List Str) (log : Str)
    (hp : ("Program log:".toList).isPrefixOf log = false) :
    EventParser.handleLog decode pid (pid :: s) log
      = Except.ok (none, EventParser.handleSystemLog pid log) := by
  simp [EventParser.handleLog, ExecutionContext.program,
    EventParser.handleProgramLog, hp]
  intro hc
  exact absurd hc (not_pre_of_isPrefixOf_false hp)

/-- `handleLog` when another program executes: system classification. -/
theorem handleLog_eq_other {E : Type} (decode : Str → Option E) (pid top : Str)
    (s : List Str) (log : Str) (ht : ¬ top = pid) :
    EventParser.handleLog decode pid (top :: s) log
      = Except.ok (none, EventParser.handleSystemLog pid log) := by
  simp [EventParser.handleLog, ExecutionContext.program, ht]

/-- On a nonempty stack, `handleLog` never throws, and its stack directives
(`newProgram`, `didPop`) are exactly those of `handleSystemLog`, whatever the
top of the stack is: a decoded `Program log:` line is a stack no-op on both
sides. -/
theorem handleLog_cons {E : Type} (decode : Str → Option E) (pid top : Str)
    (s : List Str) (log : Str) :
    ∃ ev, EventParser.handleLog decode pid (top :: s) log
      = Except.ok (ev, EventParser.handleSystemLog pid log) := by
  by_cases ht : top = pid
  · subst ht
    cases hp : ("Program log:".toList).isPrefixOf log with
    | true =>
      refine ⟨decode (log.drop LOG_START_INDEX), ?_⟩
      rw [handleLog_eq_decode decode top s log hp]
      obtain ⟨t, rfl⟩ : ∃ t, log = "Program log:".toList ++ t :=
        ⟨log.drop ("Program log:".toList).length, eq_append_of_isPrefixOf hp⟩
      rw [handleSystemLog_programLog]
    | false => exact ⟨none, handleLog_eq_fallthrough decode top s log hp⟩
  · exact ⟨none, handleLog_eq_other decode pid top s log ht⟩

/-- An emitted event pins down everything: the top of the stack was the
target, the line had the `Program log:` prefix, and the decoder produced the
event from the line with its first `LOG_START_INDEX` characters dropped. -/
theorem handleLog_emits {E : Type} {decode : Str → Option E} {pid : Str}
    {stack : List Str} {log : Str} {ev : E} {np : Option Str} {dp : Bool}
    (h : EventParser.handleLog decode pid stack log = Except.ok (some ev, np, dp)) :
    ExecutionContext.program stack = Except.ok pid
      ∧ ("Program log:".toList).isPrefixOf log = true
      ∧ decode (log.drop LOG_START_INDEX) = some ev ∧ np = none ∧ dp = false := by
  cases stack with
  | nil => rw [handleLog_nil] at h; cases h
  | cons top s =>
    by_cases ht : top = pid
    · subst ht
      cases hp : ("Program log:".toList).isPrefixOf log with
      | true =>
        rw [handleLog_eq_decode decode top s log hp] at h
        simp only [Except.ok.injEq, Prod.mk.injEq] at h
        exact ⟨rfl, rfl, h.1, h.2.1.symm, h.2.2.symm⟩
      | false =>
        rw [handleLog_eq_fallthrough decode top s log hp] at h
        simp at h
    · rw [handleLog_eq_other decode pid top s log ht] at h
      simp at h

theorem handleLog_err {E : Type} {decode : Str → Option E} {pid : Str}
    {stack : List Str} {log : Str} {e : ExtractError}
    (h : EventParser.handleLog decode pid stack log = Except.error e) :
    stack = [] ∧ e = ExtractError.peekEmptyStack := by
  cases stack with
  | nil =>
    rw [handleLog_nil] at h
    injection h with h'
    exact ⟨rfl, h'.symm⟩
  | cons top s =>
    obtain ⟨ev, hl⟩ := handleLog_cons decode pid top s log
    rw [hl] at h
    cases h

/-- A line whose classification pops takes `handleLog` through the system
path with no event: the result is exactly `(none, none, true)`. -/
theorem handleLog_didPop {E : Type} (decode : Str → Option E) (pid top : Str)
    (s : List Str) (log : Str) (h : (EventParser.handleSystemLog pid log).2 = true) :
    EventParser.handleLog decode pid (top :: s) log
      = Except.ok (none, none, true) := by
  have hsys : EventParser.handleSystemLog pid log = (none, true) := by
    rcases handleSystemLog_shape pid log with h1 | h1 | h1 | h1
    · rw [h1] at h; simp at h
    · rw [h1] at h; simp at h
    · exact h1
    · rw [h1] at h; simp at h
  obtain ⟨ev, hl⟩ := handleLog_cons decode pid top s log
  rw [hsys] at hl
  cases ev with
  | none => exact hl
  | some e =>
    have hcontra := (handleLog_emits hl).2.2.2.2
    cases hcontra

theorem parseLogsGo_nil {E : Type} (d : Str → Option E) (pid : Str)
    (stack : List Str) :
    EventParser.parseLogsGo d pid stack [] = ([], Except.ok stack) := rfl

/-- Stepping past a line that pushes: no event, one new frame. -/
theorem parseLogsGo_step_push {E : Type} (d : Str → Option E) (pid top np : Str)
    (s : List Str) (log : Str) (rest : List Str)
    (h : EventParser.handleSystemLog pid log = (some np, false)) :
    EventParser.parseLogsGo d pid (top :: s) (log :: rest)
      = EventParser.parseLogsGo d pid (np :: top :: s) rest := by
  obtain ⟨ev, hl⟩ := handleLog_cons d pid top s log
  rw [h] at hl
  have hev : ev = none := by
    cases ev with
    | none => rfl
    | some e => exact absurd ((handleLog_emits hl).2.2.2.1) (Option.some_ne_none np)
  subst hev
  simp [EventParser.parseLogsGo, hl, ExecutionContext.push]

/-- Stepping past a completion line followed by at least one more line: no
event, the top frame is dropped and the following line is discarded unread. -/
theorem parseLogsGo_step_pop {E : Type} (d : Str → Option E) (pid top : Str)
    (s : List Str) (log skipped : Str) (rest2 : List Str)
    (h : EventParser.handleSystemLog pid log = (none, true)) :
    EventParser.parseLogsGo d pid (top :: s) (log :: skipped :: rest2)
      = EventParser.parseLogsGo d pid s rest2 := by
  have hl := handleLog_didPop d pid top s log (by rw [h])
  simp [EventParser.parseLogsGo, hl, ExecutionContext.pop]

/-- A completion line as the very last line: the pop happens, the skip past
end-of-stream is a no-op, the run ends normally. -/
theorem parseLogsGo_step_pop_last {E : Type} (d : Str → Option E) (pid top : Str)
    (s : List Str) (log : Str)
    (h : EventParser.handleSystemLog pid log = (none, true)) :
    EventParser.parseLogsGo d pid (top :: s) [log] = ([], Except.ok s) := by
  have hl := handleLog_didPop d pid top s log (by rw [h])
  simp [EventParser.parseLogsGo, hl, ExecutionContext.pop]

/-- Stepping past a `Program log:` line while the target executes: the decoded
event (if any) is emitted, the stack is unchanged. -/
theorem parseLogsGo_step_decode {E : Type} (d : Str → Option E) (pid : Str)
    (s : List Str) (log : Str) (rest : List Str)
    (hp : ("Program log:".toList).isPrefixOf log = true) :
    EventParser.parseLogsGo d pid (pid :: s) (log :: rest)
      = ((d (log.drop LOG_START_INDEX)).toList
          ++ (EventParser.parseLogsGo d pid (pid :: s) rest).1,
         (EventParser.parseLogsGo d pid (pid :: s) rest).2) := by
  simp [EventParser.parseLogsGo, handleLog_eq_decode d pid s log hp]

/-- Stepping past an eventless no-op line. -/
theorem parseLogsGo_step_noop {E : Type} (d : Str → Option E) (pid top : Str)
    (s : List Str) (log : Str) (rest : List Str)
    (hev : EventParser.handleLog d pid (top :: s) log
      = Except.ok (none, none, false)) :
    EventParser.parseLogsGo d pid (top :: s) (log :: rest)
      = EventParser.parseLogsGo d pid (top :: s) rest := by
  simp [EventParser.parseLogsGo, hev]

/-- The stack outcome of a no-op line, whatever event it may emit. -/
theorem parseLogsGo_snd_noop {E : Type} (d : Str → Option E) (pid top : Str)
    (s : List Str) (log : Str) (rest : List Str)
    (h : EventParser.handleSystemLog pid log = (none, false)) :
    (EventParser.parseLogsGo d pid (top :: s) (log :: rest)).2
      = (EventParser.parseLogsGo d pid (top :: s) rest).2 := by
  obtain ⟨ev, hl⟩ := handleLog_cons d pid top s log
  rw [h] at hl
  simp [EventParser.parseLogsGo, hl]

/-- A line processed on an empty stack aborts at the peek with no event. -/
theorem parseLogsGo_empty_stack {E : Type} (d : Str → Option E) (pid : Str)
    (log : Str) (rest : List Str) :
    EventParser.parseLogsGo d pid [] (log :: rest)
      = ([], Except.error ExtractError.peekEmptyStack) := by
  simp [EventParser.parseLogsGo, handleLog_nil]

/-- If the target is not the literal `cpi` and the system classification
pushes the target, the first branch fired: the head starts with
`Program <target> invoke`. -/
theorem handleSystemLog_push_target {pid log : Str}
    (h : (EventParser.handleSystemLog pid log).1 = some pid)
    (hpid : pid ≠ "cpi".toList) :
    ("Program ".toList ++ pid ++ " invoke".toList).isPrefixOf
      (headBeforeColon log) = true := by
  unfold EventParser.handleSystemLog at h
  split_ifs at h with h1 h2 h3
  · exact h1
  · exfalso
    simp only [Option.some.injEq] at h
    exact hpid h.symm

/-- The loop never ends with the constructor error: `parseLogsGo` only throws
the peek or pop assertion. -/
theorem go_ne_malformed {E : Type} (d : Str → Option E) (pid : Str) :
    ∀ (logs stack : List Str),
      (EventParser.parseLogsGo d pid stack logs).2
        ≠ Except.error ExtractError.malformedLogStream
  | [], stack => by simp [parseLogsGo_nil]
  | log :: rest, stack => by
    cases stack with
    | nil => simp [parseLogsGo_empty_stack]
    | cons top s =>
      rcases handleSystemLog_shape pid log with hsys | hsys | hsys | hsys
      · rw [parseLogsGo_step_push d pid top pid s log rest hsys]
        exact go_ne_malformed d pid rest _
      · rw [parseLogsGo_step_push d pid top ("cpi".toList) s log rest hsys]
        exact go_ne_malformed d pid rest _
      · cases rest with
        | nil =>
          rw [parseLogsGo_step_pop_last d pid top s log hsys]
          simp
        | cons skipped rest2 =>
          rw [parseLogsGo_step_pop d pid top s log skipped rest2 hsys]
          exact go_ne_malformed d pid rest2 _
      · rw [parseLogsGo_snd_noop d pid top s log rest hsys]
        exact go_ne_malformed d pid rest _

/-- Runs in which every line is reached with a positive stack depth finish
with a normal (non-error) outcome; depth is tracked by `okRun`. -/
theorem go_isOk_of_okRun {E : Type} (d : Str → Option E) (pid : Str) :
    ∀ (logs stack : List Str),
      EventParser.okRun pid stack.length logs = true →
      (EventParser.parseLogsGo d pid stack logs).2.isOk = true
  | [], stack, _ => by simp [parseLogsGo_nil, Except.isOk, Except.toBool]
  | [log], stack, h => by
    cases stack with
    | nil => simp [EventParser.okRun] at h
    | cons top s =>
      rcases handleSystemLog_shape pid log with hsys | hsys | hsys | hsys
      · rw [parseLogsGo_step_push d pid top pid s log [] hsys]
        simp [parseLogsGo_nil, Except.isOk, Except.toBool]
      · rw [parseLogsGo_step_push d pid top ("cpi".toList) s log [] hsys]
        simp [parseLogsGo_nil, Except.isOk, Except.toBool]
      · rw [parseLogsGo_step_pop_last d pid top s log hsys]
        simp [Except.isOk, Except.toBool]
      · rw [parseLogsGo_snd_noop d pid top s log [] hsys]
        simp [parseLogsGo_nil, Except.isOk, Except.toBool]
  | log :: next :: rest2, stack, h => by
    cases stack with
    | nil => simp [EventParser.okRun] at h
    | cons top s =>
      rcases handleSystemLog_shape pid log with hsys | hsys | hsys | hsys
      · rw [parseLogsGo_step_push d pid top pid s log (next :: rest2) hsys]
        apply go_isOk_of_okRun d pid (next :: rest2) (pid :: top :: s)
        simpa [EventParser.okRun, hsys] using h
      · rw [parseLogsGo_step_push d pid top ("cpi".toList) s log (next :: rest2) hsys]
        apply go_isOk_of_okRun d pid (next :: rest2) ("cpi".toList :: top :: s)
        simpa [EventParser.okRun, hsys] using h
      · rw [parseLogsGo_step_pop d pid top s log next rest2 hsys]
        apply go_isOk_of_okRun d pid rest2 s
        simpa [EventParser.okRun, hsys] using h
      · rw [parseLogsGo_snd_noop d pid top s log (next :: rest2) hsys]
        apply go_isOk_of_okRun d pid (next :: rest2) (top :: s)
        simpa [EventParser.okRun, hsys] using h

/-- If the target differs from the placeholder `cpi`, never occurs inside a
line, and is on no stack frame, then the run emits nothing. -/
theorem go_events_nil_of_no_target {E : Type} (d : Str → Option E) (pid : Str)
    (hpid : pid ≠ "cpi".toList) :
    ∀ (logs stack : List Str),
      (∀ f ∈ stack, f ≠ pid) →
      (∀ l ∈ logs, containsSeq pid l = false) →
      (EventParser.parseLogsGo d pid stack logs).1 = []
  | [], _, _, _ => rfl
  | log :: rest, stack, hstack, hlogs => by
    cases stack with
    | nil => simp [parseLogsGo_empty_stack]
    | cons top s =>
      have htop : top ≠ pid := hstack top (List.mem_cons_self top s)
      have hnotin : containsSeq pid log = false :=
        hlogs log (List.mem_cons_self log rest)
      rcases handleSystemLog_shape pid log with hsys | hsys | hsys | hsys
      · exfalso
        have hpre : ("Program ".toList ++ pid ++ " invoke".toList).isPrefixOf
            (headBeforeColon log) = true :=
          handleSystemLog_push_target (by rw [hsys]) hpid
        have h1 : pid <:+: ("Program ".toList ++ pid ++ " invoke".toList) :=
          ⟨"Program ".toList, " invoke".toList, rfl⟩
        have h2 : pid <:+: log :=
          (h1.trans (isPrefixOf_eq_true_iff.mp hpre).isInfix).trans
            (headBeforeColon_isPre log).isInfix
        rw [containsSeq_of_inside pid log h2] at hnotin
        cases hnotin
      · rw [parseLogsGo_step_push d pid top ("cpi".toList) s log rest hsys]
        refine go_events_nil_of_no_target d pid hpid rest ("cpi".toList :: top :: s)
          ?_ ?_
        · intro f hf
          rcases List.mem_cons.mp hf with rfl | hf2
          · exact fun hc => hpid hc.symm
          · exact hstack f hf2
        · exact fun l hl => hlogs l (List.mem_cons_of_mem log hl)
      · cases rest with
        | nil =>
          rw [parseLogsGo_step_pop_last d pid top s log hsys]
        | cons skipped rest2 =>
          rw [parseLogsGo_step_pop d pid top s log skipped rest2 hsys]
          refine go_events_nil_of_no_target d pid hpid rest2 s ?_ ?_
          · exact fun f hf => hstack f (List.mem_cons_of_mem top hf)
          · exact fun l hl => hlogs l
              (List.mem_cons_of_mem log (List.mem_cons_of_mem skipped hl))
      · have hl := handleLog_eq_other d pid top s log htop
        rw [hsys] at hl
        rw [parseLogsGo_step_noop d pid top s log rest hl]
        refine go_events_nil_of_no_target d pid hpid rest (top :: s) hstack ?_
        exact fun l hl2 => hlogs l (List.mem_cons_of_mem log hl2)

theorem traceGo_nil {E : Type} (d : Str → Option E) (pid : Str)
    (stack : List Str) (i : Nat) :
    EventParser.parseLogsTraceGo d pid stack i [] = [] := rfl

theorem traceGo_empty_stack {E : Type} (d : Str → Option E) (pid : Str)
    (i : Nat) (log : Str) (rest : List Str) :
    EventParser.parseLogsTraceGo d pid [] i (log :: rest) = [] := by
  simp [EventParser.parseLogsTraceGo, handleLog_nil]

theorem traceGo_step_push {E : Type} (d : Str → Option E) (pid top np : Str)
    (s : List Str) (log : Str) (rest : List Str) (i : Nat)
    (h : EventParser.handleSystemLog pid log = (some np, false)) :
    EventParser.parseLogsTraceGo d pid (top :: s) i (log :: rest)
      = EventParser.parseLogsTraceGo d pid (np :: top :: s) (i + 1) rest := by
  obtain ⟨ev, hl⟩ := handleLog_cons d pid top s log
  rw [h] at hl
  have hev : ev = none := by
    cases ev with
    | none => rfl
    | some e => exact absurd ((handleLog_emits hl).2.2.2.1) (Option.some_ne_none np)
  subst hev
  simp [EventParser.parseLogsTraceGo, hl, ExecutionContext.push]

theorem traceGo_step_pop {E : Type} (d : Str → Option E) (pid top : Str)
    (s : List Str) (log skipped : Str) (rest2 : List Str) (i : Nat)
    (h : EventParser.handleSystemLog pid log = (none, true)) :
    EventParser.parseLogsTraceGo d pid (top :: s) i (log :: skipped :: rest2)
      = EventParser.parseLogsTraceGo d pid s (i + 2) rest2 := by
  have hl := handleLog_didPop d pid top s log (by rw [h])
  simp [EventParser.parseLogsTraceGo, hl, ExecutionContext.pop]

theorem traceGo_step_pop_last {E : Type} (d : Str → Option E) (pid top : Str)
    (s : List Str) (log : Str) (i : Nat)
    (h : EventParser.handleSystemLog pid log = (none, true)) :
    EventParser.parseLogsTraceGo d pid (top :: s) i [log] = [] := by
  have hl := handleLog_didPop d pid top s log (by rw [h])
  simp [EventParser.parseLogsTraceGo, hl, ExecutionContext.pop]

theorem traceGo_step_decode {E : Type} (d : Str → Option E) (pid : Str)
    (s : List Str) (log : Str) (rest : List Str) (i : Nat)
    (hp : ("Program log:".toList).isPrefixOf log = true) :
    EventParser.parseLogsTraceGo d pid (pid :: s) i (log :: rest)
      = ((d (log.drop LOG_START_INDEX)).map (fun e => (i, e))).toList
          ++ EventParser.parseLogsTraceGo d pid (pid :: s) (i + 1) rest := by
  cases hd : d (log.drop LOG_START_INDEX) with
  | none =>
    simp [EventParser.parseLogsTraceGo, handleLog_eq_decode d pid s log hp, hd]
  | some e =>
    simp [EventParser.parseLogsTraceGo, handleLog_eq_decode d pid s log hp, hd]

theorem traceGo_step_noop {E : Type} (d : Str → Option E) (pid top : Str)
    (s : List Str) (log : Str) (rest : List Str) (i : Nat)
    (hev : EventParser.handleLog d pid (top :: s) log
      = Except.ok (none, none, false)) :
    EventParser.parseLogsTraceGo d pid (top :: s) i (log :: rest)
      = EventParser.parseLogsTraceGo d pid (top :: s) (i + 1) rest := by
  simp [EventParser.parseLogsTraceGo, hev]

theorem bfalse_of_not {b : Bool} (h : ¬ b = true) : b = false := by
  cases b with
  | false => rfl
  | true => exact absurd rfl h

theorem shift_one {E : Type} {d : Str → Option E} {log : Str} {rest : List Str}
    {i : Nat} {pr : Nat × E}
    (h : i + 1 ≤ pr.1 ∧ ∃ line, rest.get? (pr.1 - (i + 1)) = some line
      ∧ ("Program log:".toList).isPrefixOf line = true
      ∧ d (line.drop LOG_START_INDEX) = some pr.2) :
    i ≤ pr.1 ∧ ∃ line, (log :: rest).get? (pr.1 - i) = some line
      ∧ ("Program log:".toList).isPrefixOf line = true
      ∧ d (line.drop LOG_START_INDEX) = some pr.2 := by
  obtain ⟨hle, line, hget, hP⟩ := h
  refine ⟨by omega, line, ?_, hP⟩
  have he : pr.1 - i = (pr.1 - (i + 1)) + 1 := by omega
  rw [he, List.get?_cons_succ]
  exact hget

theorem chain'_cons_of_lb {E : Type} (i : Nat) (e : E) (tr : List (Nat × E))
    (hlb : ∀ pr ∈ tr, i < pr.1)
    (hch : List.Chain' (fun p q : Nat × E => p.1 < q.1) tr) :
    List.Chain' (fun p q : Nat × E => p.1 < q.1) ((i, e) :: tr) := by
  cases tr with
  | nil => simp
  | cons p l => exact List.Chain'.cons (hlb p (List.mem_cons_self p l)) hch

/-- The events of the instrumented loop, in order, are exactly the events of
the plain loop. -/
theorem traceGo_map_snd {E : Type} (d : Str → Option E) (pid : Str) :
    ∀ (logs stack : List Str) (i : Nat),
      (EventParser.parseLogsTraceGo d pid stack i logs).map Prod.snd
        = (EventParser.parseLogsGo d pid stack logs).1
  | [], stack, i => by simp [traceGo_nil, parseLogsGo_nil]
  | log :: rest, stack, i => by
    cases stack with
    | nil => simp [traceGo_empty_stack, parseLogsGo_empty_stack]
    | cons top s =>
      by_cases hd : top = pid ∧ ("Program log:".toList).isPrefixOf log = true
      · obtain ⟨ht, hp⟩ := hd
        rw [ht, traceGo_step_decode d pid s log rest i hp,
          parseLogsGo_step_decode d pid s log rest hp]
        cases hdp : d (log.drop LOG_START_INDEX) with
        | none => simpa [hdp] using traceGo_map_snd d pid rest (pid :: s) (i + 1)
        | some e => simpa [hdp] using traceGo_map_snd d pid rest (pid :: s) (i + 1)
      · rcases handleSystemLog_shape pid log with hsys | hsys | hsys | hsys
        · rw [traceGo_step_push d pid top pid s log rest i hsys,
            parseLogsGo_step_push d pid top pid s log rest hsys]
          exact traceGo_map_snd d pid rest (pid :: top :: s) (i + 1)
        · rw [traceGo_step_push d pid top ("cpi".toList) s log rest i hsys,
            parseLogsGo_step_push d pid top ("cpi".toList) s log rest hsys]
          exact traceGo_map_snd d pid rest ("cpi".toList :: top :: s) (i + 1)
        · cases rest with
          | nil =>
            rw [traceGo_step_pop_last d pid top s log i hsys,
              parseLogsGo_step_pop_last d pid top s log hsys]
            rfl
          | cons skipped rest2 =>
            rw [traceGo_step_pop d pid top s log skipped rest2 i hsys,
              parseLogsGo_step_pop d pid top s log skipped rest2 hsys]
            exact traceGo_map_snd d pid rest2 s (i + 2)
        · have hl : EventParser.handleLog d pid (top :: s) log
              = Except.ok (none, none, false) := by
            by_cases ht2 : top = pid
            · rcases not_and_or.mp hd with ht | hp
              · exact absurd ht2 ht
              · rw [ht2, handleLog_eq_fallthrough d pid s log (bfalse_of_not hp), hsys]
            · rw [handleLog_eq_other d pid top s log ht2, hsys]
          rw [traceGo_step_noop d pid top s log rest i hl,
            parseLogsGo_step_noop d pid top s log rest hl]
          exact traceGo_map_snd d pid rest (top :: s) (i + 1)

/-- Every recorded pair of the instrumented loop points back into the line
list: index in range, the line has the decode marker, and the decoder maps
its payload to the recorded event. -/
theorem traceGo_mem {E : Type} (d : Str → Option E) (pid : Str) :
    ∀ (logs stack : List Str) (i : Nat),
      ∀ pr ∈ EventParser.parseLogsTraceGo d pid stack i logs,
        i ≤ pr.1 ∧ ∃ line, logs.get? (pr.1 - i) = some line
          ∧ ("Program log:".toList).isPrefixOf line = true
          ∧ d (line.drop LOG_START_INDEX) = some pr.2
  | [], stack, i => by simp [traceGo_nil]
  | log :: rest, stack, i => by
    cases stack with
    | nil => simp [traceGo_empty_stack]
    | cons top s =>
      intro pr hpr
      by_cases hd : top = pid ∧ ("Program log:".toList).isPrefixOf log = true
      · obtain ⟨ht, hp⟩ := hd
        rw [ht, traceGo_step_decode d pid s log rest i hp] at hpr
        rcases List.mem_append.mp hpr with hh | htl
        · cases hdp : d (log.drop LOG_START_INDEX) with
          | none => rw [hdp] at hh; simp at hh
          | some e =>
            rw [hdp] at hh
            have hpre : pr = (i, e) := by simpa using hh
            subst hpre
            exact ⟨Nat.le_refl i, log, by simp, hp, by simpa using hdp⟩
        · exact shift_one (traceGo_mem d pid rest (pid :: s) (i + 1) pr htl)
      · rcases handleSystemLog_shape pid log with hsys | hsys | hsys | hsys
        · rw [traceGo_step_push d pid top pid s log rest i hsys] at hpr
          exact shift_one (traceGo_mem d pid rest (pid :: top :: s) (i + 1) pr hpr)
        · rw [traceGo_step_push d pid top ("cpi".toList) s log rest i hsys] at hpr
          exact shift_one
            (traceGo_mem d pid rest ("cpi".toList :: top :: s) (i + 1) pr hpr)
        · cases rest with
          | nil =>
            rw [traceGo_step_pop_last d pid top s log i hsys] at hpr
            simp at hpr
          | cons skipped rest2 =>
            rw [traceGo_step_pop d pid top s log skipped rest2 i hsys] at hpr
            exact shift_one (shift_one (traceGo_mem d pid rest2 s (i + 2) pr hpr))
        · have hl : EventParser.handleLog d pid (top :: s) log
              = Except.ok (none, none, false) := by
            by_cases ht2 : top = pid
            · rcases not_and_or.mp hd with ht | hp
              · exact absurd ht2 ht
              · rw [ht2, handleLog_eq_fallthrough d pid s log (bfalse_of_not hp), hsys]
            · rw [handleLog_eq_other d pid top s log ht2, hsys]
          rw [traceGo_step_noop d pid top s log rest i hl] at hpr
          exact shift_one (traceGo_mem d pid rest (top :: s) (i + 1) pr hpr)

/-- The recorded source-line indices are strictly increasing. -/
theorem traceGo_chain {E : Type} (d : Str → Option E) (pid : Str) :
    ∀ (logs stack : List Str) (i : Nat),
      List.Chain' (fun p q : Nat × E => p.1 < q.1)
        (EventParser.parseLogsTraceGo d pid stack i logs)
  | [], stack, i => by simp [traceGo_nil]
  | log :: rest, stack, i => by
    cases stack with
    | nil => simp [traceGo_empty_stack]
    | cons top s =>
      by_cases hd : top = pid ∧ ("Program log:".toList).isPrefixOf log = true
      · obtain ⟨ht, hp⟩ := hd
        rw [ht, traceGo_step_decode d pid s log rest i hp]
        cases hdp : d (log.drop LOG_START_INDEX) with
        | none => simpa using traceGo_chain d pid rest (pid :: s) (i + 1)
        | some e =>
          have hred : (((some e).map fun e => (i, e)).toList
              ++ EventParser.parseLogsTraceGo d pid (pid :: s) (i + 1) rest)
            = (i, e) :: EventParser.parseLogsTraceGo d pid (pid :: s) (i + 1) rest := by
            simp
          rw [hred]
          apply chain'_cons_of_lb
          · intro q hq
            have := (traceGo_mem d pid rest (pid :: s) (i + 1) q hq).1
            omega
          · exact traceGo_chain d pid rest (pid :: s) (i + 1)
      · rcases handleSystemLog_shape pid log with hsys | hsys | hsys | hsys
        · rw [traceGo_step_push d pid top pid s log rest i hsys]
          exact traceGo_chain d pid rest (pid :: top :: s) (i + 1)
        · rw [traceGo_step_push d pid top ("cpi".toList) s log rest i hsys]
          exact traceGo_chain d pid rest ("cpi".toList :: top :: s) (i + 1)
        · cases rest with
          | nil =>
            rw [traceGo_step_pop_last d pid top s log i hsys]
            simp
          | cons skipped rest2 =>
            rw [traceGo_step_pop d pid top s log skipped rest2 i hsys]
            exact traceGo_chain d pid rest2 s (i + 2)
        · have hl : EventParser.handleLog d pid (top :: s) log
              = Except.ok (none, none, false) := by
            by_cases ht2 : top = pid
            · rcases not_and_or.mp hd with ht | hp
              · exact absurd ht2 ht
              · rw [ht2, handleLog_eq_fallthrough d pid s log (bfalse_of_not hp), hsys]
            · rw [handleLog_eq_other d pid top s log ht2, hsys]
          rw [traceGo_step_noop d pid top s log rest i hl]
          exact traceGo_chain d pid rest (top :: s) (i + 1)

theorem init_some_eq {first X : Str} (h : invokeCapture first = some X) :
    ExecutionContext.init (some first) = Except.ok [X] := by
  simp [ExecutionContext.init, h]

theorem init_none_eq {first : Str} (h : invokeCapture first = none) :
    ExecutionContext.init (some first)
      = Except.error ExtractError.malformedLogStream := by
  simp [ExecutionContext.init, h]

theorem parseLogs_nil {E : Type} (d : Str → Option E) (pid : Str) :
    EventParser.parseLogs d pid []
      = ([], Except.error ExtractError.malformedLogStream) := rfl

theorem parseLogs_cons_ok {E : Type} (d : Str → Option E) (pid first : Str)
    (rest stack : List Str)
    (hinit : ExecutionContext.init (some first) = Except.ok stack) :
    EventParser.parseLogs d pid (first :: rest)
      = EventParser.parseLogsGo d pid stack rest := by
  simp [EventParser.parseLogs, LogScanner.next, hinit]

theorem parseLogs_cons_err {E : Type} (d : Str → Option E) (pid first : Str)
    (rest : List Str) (e : ExtractError)
    (hinit : ExecutionContext.init (some first) = Except.error e) :
    EventParser.parseLogs d pid (first :: rest) = ([], Except.error e) := by
  simp [EventParser.parseLogs, LogScanner.next, hinit]

theorem parseLogsTrace_nil {E : Type} (d : Str → Option E) (pid : Str) :
    EventParser.parseLogsTrace d pid [] = [] := rfl

theorem parseLogsTrace_cons_ok {E : Type} (d : Str → Option E) (pid first : Str)
    (rest stack : List Str)
    (hinit : ExecutionContext.init (some first) = Except.ok stack) :
    EventParser.parseLogsTrace d pid (first :: rest)
      = EventParser.parseLogsTraceGo d pid stack 1 rest := by
  simp [EventParser.parseLogsTrace, LogScanner.next, hinit]

theorem parseLogsTrace_cons_err {E : Type} (d : Str → Option E) (pid first : Str)
    (rest : List Str) (e : ExtractError)
    (hinit : ExecutionContext.init (some first) = Except.error e) :
    EventParser.parseLogsTrace d pid (first :: rest) = [] := by
  simp [EventParser.parseLogsTrace, LogScanner.next, hinit]

end Helpers

section Scenarios

example : invokeCapture ("Program T1 invoke [1]".toList) = some ("T1".toList) := by decide

example : invokeCapture ("null".toList) = none := by decide

example : invokeCapture ("Program A invoke B invoke [2]".toList)
    = some ("A invoke B".toList) := by decide

example : consumedMatch ("Program T1 consumed 10 units".toList) = true := by decide

example : consumedMatch ("Program log".toList) = false := by decide

example : EventParser.parseLogs decodeLen ("T1".toList)
    ["Program T1 invoke [1]".toList, "Program log: hello".toList,
     "Program T1 consumed 100 units".toList, "Program T1 success".toList]
    = ([5], Except.ok []) := by decide

example : EventParser.parseLogs decodeLen ("T1".toList)
    ["Program T1 invoke [1]".toList, "Program T2 invoke [2]".toList,
     "Program log: hidden".toList, "Program T2 consumed 50 units".toList,
     "Program T2 success".toList, "Program T1 consumed 200 units".toList,
     "Program T1 success".toList]
    = ([], Except.ok []) := by decide

example : EventParser.parseLogs decodeLen ("T1".toList) [] =
    ([], Except.error ExtractError.malformedLogStream) := by decide

end Scenarios

section Claims

/-- Claim C1, counterexample: on a two-line input whose second line is the
outermost consumed marker, the loop pops the size-1 stack successfully and
finishes with an empty stack and no error — against "a pop on a stack of
size 1 must fail fatally" and "every reachable state of the extraction loop
has at least one element". -/
theorem c1_counterexample :
    ExecutionContext.pop ["T1".toList] = Except.ok []
    ∧ EventParser.parseLogs decodeNone ("T1".toList)
        ["Program T1 invoke [1]".toList, "Program T1 consumed 10 units".toList]
      = ([], Except.ok []) :=
  ⟨rfl, by decide⟩

/-- Claim C1 (amended): the pop guard only rejects a pop on an already-empty
stack; a pop on a stack of size 1 succeeds and empties the stack, so the
loop can reach a state with an empty execution stack; the emptiness is
detected fatally only when a further line is handled, at the peek. -/
theorem c1_pop_empties_stack :
    (∀ (x : Str) (s : List Str), ExecutionContext.pop (x :: s) = Except.ok s)
    ∧ ExecutionContext.pop [] = Except.error ExtractError.popEmptyStack
    ∧ (∀ (E : Type) (d : Str → Option E) (pid log : Str) (rest : List Str),
        EventParser.parseLogsGo d pid [] (log :: rest)
          = ([], Except.error ExtractError.peekEmptyStack)) :=
  ⟨fun _ _ => rfl, rfl, fun _ d pid log rest => parseLogsGo_empty_stack d pid log rest⟩

/-- Claim C2, counterexample: a line whose head matches the consumed pattern
but also contains the substring `invoke` is classified as a CPI push, not a
pop — the stack grows to two frames and no following line is discarded. -/
theorem c2_counterexample :
    consumedMatch (headBeforeColon ("Program Ainvoke consumed 5 u".toList)) = true
    ∧ EventParser.parseLogs decodeNone ("T1".toList)
        ["Program T1 invoke [1]".toList, "Program Ainvoke consumed 5 u".toList]
      = ([], Except.ok ["cpi".toList, "T1".toList]) := by decide

/-- Claim C2 (amended): for every processed line whose head matches the
consumed pattern and reaches that branch — it does not start with
`Program <target> invoke` and does not contain `invoke` — the extractor pops
the stack and unconditionally discards exactly one following line unread,
whatever that line is. -/
theorem c2_pop_and_skip {E : Type} (d : Str → Option E) (pid : Str)
    (stack : List Str) (log : Str) (rest : List Str)
    (hne : stack ≠ [])
    (h1 : ("Program ".toList ++ pid ++ " invoke".toList).isPrefixOf
      (headBeforeColon log) = false)
    (h2 : containsSeq ("invoke".toList) (headBeforeColon log) = false)
    (h3 : consumedMatch (headBeforeColon log) = true) :
    EventParser.parseLogsGo d pid stack (log :: rest)
      = EventParser.parseLogsGo d pid stack.tail (rest.drop 1) := by
  obtain ⟨top, s, rfl⟩ : ∃ top s, stack = top :: s := by
    cases stack with
    | nil => exact absurd rfl hne
    | cons a b => exact ⟨a, b, rfl⟩
  have hsys : EventParser.handleSystemLog pid log = (none, true) := by
    unfold EventParser.handleSystemLog
    rw [h1, h2, h3]
    rw [if_neg (show ¬(false = true) by decide),
      if_neg (show ¬(false = true) by decide), if_pos rfl]
  cases rest with
  | nil =>
    rw [parseLogsGo_step_pop_last d pid top s log hsys]
    rfl
  | cons skipped rest2 =>
    rw [parseLogsGo_step_pop d pid top s log skipped rest2 hsys]
    rfl

theorem c2_witness :
    EventParser.parseLogsGo decodeNone ("T1".toList) ["T1".toList]
        ("Program T1 consumed 10 units".toList
          :: ["Program T2 invoke [2]".toList, "junk".toList])
      = EventParser.parseLogsGo decodeNone ("T1".toList) (["T1".toList].tail)
          (["Program T2 invoke [2]".toList, "junk".toList].drop 1) :=
  c2_pop_and_skip decodeNone ("T1".toList) ["T1".toList]
    ("Program T1 consumed 10 units".toList)
    ["Program T2 invoke [2]".toList, "junk".toList]
    (by decide) (by decide) (by decide) (by decide)

/-- Claim C3, counterexample: the current executor is `X` and the line head
starts with `Program X invoke`, yet the extractor pushes the placeholder
`cpi`, not the target ProgramId — the rule compares against the target, not
the current executor. -/
theorem c3_counterexample :
    ExecutionContext.program ["X".toList] = Except.ok ("X".toList)
    ∧ ("Program ".toList ++ "X".toList ++ " invoke".toList).isPrefixOf
        (headBeforeColon ("Program X invoke [2]".toList)) = true
    ∧ EventParser.parseLogs decodeNone ("T1".toList)
        ["Program X invoke [1]".toList, "Program X invoke [2]".toList]
      = ([], Except.ok ["cpi".toList, "X".toList]) := by decide

/-- Claim C3 (amended): for every processed line whose head starts with
`Program <targetProgramId> invoke` (the target, not the current executor),
the extractor pushes the target ProgramId; the rule is checked first, with
no further condition on the head. -/
theorem c3_push_target {E : Type} (d : Str → Option E) (pid : Str)
    (stack : List Str) (log : Str) (rest : List Str)
    (hne : stack ≠ [])
    (h1 : ("Program ".toList ++ pid ++ " invoke".toList).isPrefixOf
      (headBeforeColon log) = true) :
    EventParser.parseLogsGo d pid stack (log :: rest)
      = EventParser.parseLogsGo d pid (ExecutionContext.push stack pid) rest := by
  obtain ⟨top, s, rfl⟩ : ∃ top s, stack = top :: s := by
    cases stack with
    | nil => exact absurd rfl hne
    | cons a b => exact ⟨a, b, rfl⟩
  have hsys : EventParser.handleSystemLog pid log = (some pid, false) := by
    unfold EventParser.handleSystemLog
    rw [h1, if_pos rfl]
  exact parseLogsGo_step_push d pid top pid s log rest hsys

theorem c3_witness :
    EventParser.parseLogsGo decodeNone ("T1".toList) ["X".toList]
        ("Program T1 invoke [2]".toList :: [])
      = EventParser.parseLogsGo decodeNone ("T1".toList)
          (ExecutionContext.push ["X".toList] ("T1".toList)) [] :=
  c3_push_target decodeNone ("T1".toList) ["X".toList]
    ("Program T1 invoke [2]".toList) [] (by decide) (by decide)

/-- Claim C4, counterexample: a program-owned line starting with
`Program log:` but not `Program log: ` (no trailing space) is still passed
to the decoder — with its first payload character swallowed — rather than
falling through to system classification. -/
theorem c4_counterexample :
    ("Program log: ".toList).isPrefixOf ("Program log:xyz".toList) = false
    ∧ EventParser.parseLogs decodeLen ("T1".toList)
        ["Program T1 invoke [1]".toList, "Program log:xyz".toList]
      = ([2], Except.ok ["T1".toList]) := by decide

/-- Claim C4 (amended): a program-owned line is decoded if and only if it
starts with the 12-character prefix `Program log:` (no trailing space); in
that case its first `LOG_START_INDEX` = 13 characters are dropped and the
remainder goes to the decoder, the decoded event (if any) being emitted;
otherwise the line falls through to system classification. -/
theorem c4_decode_marker {E : Type} (d : Str → Option E) (pid : Str)
    (stack : List Str) (log : Str) (rest : List Str) :
    (("Program log:".toList).isPrefixOf log = true →
      EventParser.parseLogsGo d pid (pid :: stack) (log :: rest)
        = ((d (log.drop LOG_START_INDEX)).toList
            ++ (EventParser.parseLogsGo d pid (pid :: stack) rest).1,
           (EventParser.parseLogsGo d pid (pid :: stack) rest).2))
    ∧ (("Program log:".toList).isPrefixOf log = false →
      EventParser.handleLog d pid (pid :: stack) log
        = Except.ok (none, EventParser.handleSystemLog pid log)) :=
  ⟨fun hp => parseLogsGo_step_decode d pid stack log rest hp,
   fun hp => handleLog_eq_fallthrough d pid stack log hp⟩

theorem c4_witness :
    EventParser.parseLogsGo decodeLen ("T1".toList)
        ("T1".toList :: []) ("Program log:xyz".toList :: [])
      = ((decodeLen (("Program log:xyz".toList).drop LOG_START_INDEX)).toList
          ++ (EventParser.parseLogsGo decodeLen ("T1".toList)
              ("T1".toList :: []) []).1,
         (EventParser.parseLogsGo decodeLen ("T1".toList)
             ("T1".toList :: []) []).2) :=
  (c4_decode_marker decodeLen ("T1".toList) [] ("Program log:xyz".toList) []).1
    (by decide)

/-- Claim C5, counterexample: when the target ProgramId equals the
placeholder literal `cpi`, a line under a placeholder frame is classified as
target-owned and decoded — the placeholder is compared against the target at
every peek. -/
theorem c5_counterexample :
    EventParser.parseLogs (decodeConst 3) ("cpi".toList)
        ["Program X invoke [1]".toList, "Program Y invoke [2]".toList,
          "Program log: hidden".toList]
      = ([3], Except.ok ["cpi".toList, "X".toList]) := by decide

/-- Claim C5 (amended): provided the target ProgramId differs from the
placeholder literal `cpi`, a line handled with a placeholder frame on top is
never classified target-owned: its handling is independent of the decoder
and equal to the system classification, with no event. -/
theorem c5_placeholder_frame {E : Type} (f g : Str → Option E) (pid : Str)
    (stack : List Str) (log : Str) (h : pid ≠ "cpi".toList) :
    EventParser.handleLog f pid ("cpi".toList :: stack) log
        = EventParser.handleLog g pid ("cpi".toList :: stack) log
      ∧ EventParser.handleLog f pid ("cpi".toList :: stack) log
        = Except.ok (none, EventParser.handleSystemLog pid log) := by
  have hf := handleLog_eq_other f pid ("cpi".toList) stack log (fun hc => h hc.symm)
  have hg := handleLog_eq_other g pid ("cpi".toList) stack log (fun hc => h hc.symm)
  exact ⟨hf.trans hg.symm, hf⟩

theorem c5_witness :
    EventParser.handleLog (decodeConst 7) ("T1".toList)
        ("cpi".toList :: []) ("Program log: hi".toList)
      = EventParser.handleLog decodeNone ("T1".toList)
          ("cpi".toList :: []) ("Program log: hi".toList)
    ∧ EventParser.handleLog (decodeConst 7) ("T1".toList)
        ("cpi".toList :: []) ("Program log: hi".toList)
      = Except.ok (none, EventParser.handleSystemLog ("T1".toList)
          ("Program log: hi".toList)) :=
  c5_placeholder_frame (decodeConst 7) decodeNone ("T1".toList) []
    ("Program log: hi".toList) (by decide)

end Claims

section MoreClaims

/-- Claim C6: the events of `parseLogs` are the second components of the
instrumented trace, whose source-line indices are strictly increasing — so
events come out in source-line order, no line emits more than once, and each
recorded pair really comes from its line: the line exists at that index,
carries the decode marker, and the decoder maps its payload to the event. -/
theorem c6_ordering {E : Type} (d : Str → Option E) (pid : Str)
    (logs : List Str) :
    (EventParser.parseLogs d pid logs).1
        = (EventParser.parseLogsTrace d pid logs).map Prod.snd
      ∧ List.Chain' (· < ·)
          ((EventParser.parseLogsTrace d pid logs).map Prod.fst)
      ∧ List.Forall
          (fun pr => ∃ line, logs.get? pr.1 = some line
            ∧ ("Program log:".toList).isPrefixOf line = true
            ∧ d (line.drop LOG_START_INDEX) = some pr.2)
          (EventParser.parseLogsTrace d pid logs) := by
  cases logs with
  | nil =>
    refine ⟨rfl, ?_, ?_⟩
    · rw [parseLogsTrace_nil]
      simp
    · rw [parseLogsTrace_nil]
      simp [List.Forall]
  | cons first rest =>
    cases hinit : ExecutionContext.init (some first) with
    | error e =>
      rw [parseLogs_cons_err d pid first rest e hinit,
        parseLogsTrace_cons_err d pid first rest e hinit]
      exact ⟨rfl, by simp, by simp [List.Forall]⟩
    | ok stack =>
      rw [parseLogs_cons_ok d pid first rest stack hinit,
        parseLogsTrace_cons_ok d pid first rest stack hinit]
      refine ⟨(traceGo_map_snd d pid rest stack 1).symm, ?_, ?_⟩
      · exact (List.chain'_map Prod.fst).mpr (traceGo_chain d pid rest stack 1)
      · rw [List.forall_iff_forall_mem]
        intro pr hpr
        obtain ⟨hle, line, hget, hmark, hdec⟩ :=
          traceGo_mem d pid rest stack 1 pr hpr
        refine ⟨line, ?_, hmark, hdec⟩
        have he : pr.1 = (pr.1 - 1) + 1 := by omega
        rw [he, List.get?_cons_succ]
        exact hget

/-- Claim C7, counterexample: the target ProgramId `cpi` occurs in no line of
the input, yet an event is emitted — the placeholder frame pushed for
`Program Y invoke [2]` compares equal to the target at the peek and the
following line is decoded. -/
theorem c7_counterexample :
    containsSeq ("cpi".toList) ("Program X invoke [1]".toList) = false
    ∧ containsSeq ("cpi".toList) ("Program Y invoke [2]".toList) = false
    ∧ containsSeq ("cpi".toList) ("Program log: yo".toList) = false
    ∧ EventParser.parseLogs (decodeConst 9) ("cpi".toList)
        ["Program X invoke [1]".toList, "Program Y invoke [2]".toList,
          "Program log: yo".toList]
      = ([9], Except.ok ["cpi".toList, "X".toList]) := by decide

/-- Claim C7 (amended): an event can only be emitted when the peek returns
the target ProgramId; and when the target differs from the placeholder
literal `cpi` and occurs in no line, the run emits nothing. -/
theorem c7_attribution {E : Type} (d : Str → Option E) (pid : Str) :
    (∀ (stack : List Str) (log : Str) (ev : E) (np : Option Str) (dp : Bool),
      EventParser.handleLog d pid stack log = Except.ok (some ev, np, dp) →
      ExecutionContext.program stack = Except.ok pid)
    ∧ (pid ≠ "cpi".toList →
      ∀ logs : List Str, (∀ l ∈ logs, containsSeq pid l = false) →
      (EventParser.parseLogs d pid logs).1 = []) := by
  constructor
  · intro stack log ev np dp h
    exact (handleLog_emits h).1
  · intro hpid logs hlogs
    cases logs with
    | nil => rfl
    | cons first rest =>
      cases hinit : ExecutionContext.init (some first) with
      | error e => rw [parseLogs_cons_err d pid first rest e hinit]
      | ok stack =>
        rw [parseLogs_cons_ok d pid first rest stack hinit]
        obtain ⟨X, hcap, rfl⟩ :
            ∃ X, invokeCapture first = some X ∧ stack = [X] := by
          cases hcap : invokeCapture first with
          | some X =>
            rw [init_some_eq hcap] at hinit
            injection hinit with h'
            exact ⟨X, rfl, h'.symm⟩
          | none =>
            rw [init_none_eq hcap] at hinit
            cases hinit
        refine go_events_nil_of_no_target d pid hpid rest [X] ?_ ?_
        · intro f hf
          obtain rfl : f = X := by simpa using hf
          intro hfpid
          subst hfpid
          have hin := containsSeq_of_inside f first (invokeCapture_inside first f hcap)
          rw [hlogs first (List.mem_cons_self first rest)] at hin
          cases hin
        · exact fun l hl => hlogs l (List.mem_cons_of_mem first hl)

theorem c7_witness :
    (EventParser.parseLogs decodeLen ("T1".toList)
        ["Program X invoke [1]".toList]).1 = [] :=
  (c7_attribution decodeLen ("T1".toList)).2 (by decide)
    ["Program X invoke [1]".toList] (by decide)

/-- Claim C8: extraction fails with the constructor error — before any line
is processed, with no event — exactly when the input is empty or its first
line does not match the invoke regex; when the first line matches, the
capture becomes the sole element of the stack and the loop runs on the
remaining lines. -/
theorem c8_first_line {E : Type} (d : Str → Option E) (pid : Str) :
    EventParser.parseLogs d pid []
        = ([], Except.error ExtractError.malformedLogStream)
    ∧ (∀ (first : Str) (rest : List Str), invokeCapture first = none →
        EventParser.parseLogs d pid (first :: rest)
          = ([], Except.error ExtractError.malformedLogStream))
    ∧ (∀ (first X : Str) (rest : List Str), invokeCapture first = some X →
        EventParser.parseLogs d pid (first :: rest)
          = EventParser.parseLogsGo d pid [X] rest)
    ∧ (∀ logs : List Str,
        (EventParser.parseLogs d pid logs).2
            = Except.error ExtractError.malformedLogStream →
        invokeCapture ((logs.head?).getD ("null".toList)) = none) := by
  refine ⟨rfl, ?_, ?_, ?_⟩
  · intro first rest h
    exact parseLogs_cons_err d pid first rest _ (init_none_eq h)
  · intro first X rest h
    exact parseLogs_cons_ok d pid first rest [X] (init_some_eq h)
  · intro logs h
    cases logs with
    | nil => rfl
    | cons first rest =>
      cases hcap : invokeCapture first with
      | none => exact hcap
      | some X =>
        exfalso
        rw [parseLogs_cons_ok d pid first rest [X] (init_some_eq hcap)] at h
        exact go_ne_malformed d pid rest [X] h

theorem c8_witness :
    EventParser.parseLogs decodeNone ("T1".toList) ["bogus first line".toList]
      = ([], Except.error ExtractError.malformedLogStream) :=
  (c8_first_line decodeNone ("T1".toList)).2.1 ("bogus first line".toList) []
    (by decide)

/-- Claim C9: end-of-stream is never an error — the loop returns the stack
as it stands, whatever its depth — and any run whose lines are all reached
with positive depth (pops never exceeding pushes, in particular every
unbalanced-but-open input) finishes with a normal outcome. -/
theorem c9_open_runs_ok {E : Type} (d : Str → Option E) (pid : Str) :
    (∀ stack : List Str,
      EventParser.parseLogsGo d pid stack [] = ([], Except.ok stack))
    ∧ (∀ (first X : Str) (rest : List Str),
        invokeCapture first = some X →
        EventParser.okRun pid 1 rest = true →
        (EventParser.parseLogs d pid (first :: rest)).2.isOk = true) := by
  refine ⟨fun stack => rfl, ?_⟩
  intro first X rest hcap hok
  rw [parseLogs_cons_ok d pid first rest [X] (init_some_eq hcap)]
  exact go_isOk_of_okRun d pid rest [X] hok

theorem c9_witness :
    (EventParser.parseLogs decodeNone ("T1".toList)
        ("Program T1 invoke [1]".toList
          :: ["Program A invoke [2]".toList])).2.isOk = true :=
  (c9_open_runs_ok decodeNone ("T1".toList)).2 ("Program T1 invoke [1]".toList)
    ("T1".toList) ["Program A invoke [2]".toList] (by decide) (by decide)

/-- Claim C10: reading past end-of-stream reports end-of-stream and leaves
the scanner state unchanged (so repeated reads keep reporting it), and a
consumed line as the final line pops and then no-ops on the discard:
extraction completes normally with no event and no error. -/
theorem c10_trailing_consumed {E : Type} (d : Str → Option E) (pid top : Str)
    (s : List Str) (log : Str)
    (h : (EventParser.handleSystemLog pid log).2 = true) :
    LogScanner.next [] = (none, [])
    ∧ EventParser.parseLogsGo d pid (top :: s) [log] = ([], Except.ok s) := by
  refine ⟨rfl, ?_⟩
  have hsys : EventParser.handleSystemLog pid log = (none, true) := by
    rcases handleSystemLog_shape pid log with h1 | h1 | h1 | h1
    · rw [h1] at h; simp at h
    · rw [h1] at h; simp at h
    · exact h1
    · rw [h1] at h; simp at h
  exact parseLogsGo_step_pop_last d pid top s log hsys

theorem c10_witness :
    LogScanner.next [] = (none, [])
    ∧ EventParser.parseLogsGo decodeNone ("T1".toList)
        ("T1".toList :: []) ["Program T1 consumed 10 units".toList]
      = ([], Except.ok []) :=
  c10_trailing_consumed decodeNone ("T1".toList) ("T1".toList) []
    ("Program T1 consumed 10 units".toList) (by decide)

end MoreClaims
